import Mathlib

/-!
Verification development for the Moodle workshop group-grades tool
(`grades_report_parser.py`, `moodle_models.py`, `mwgg.py`, `util.py`).

Python dictionaries are modelled as association lists with
insertion-order semantics: assigning to an existing key keeps its
position and replaces the value, assigning to a fresh key appends at
the end.  Numeric grades are modelled as rationals, the "no grade"
sentinel `'-'` as `Option.none`.  Fallible code returns `Except`.
-/

namespace MWGG

/-- Lookup in an association list: `d[k]` for a Python dict (first
matching key, which is the only one since dicts never hold duplicate
keys). -/
def lookupA {α β : Type} [DecidableEq α] (k : α) : List (α × β) → Option β
  | [] => none
  | (k', v) :: rest => if k = k' then some v else lookupA k rest

/-- Assignment `d[k] = v` on a Python dict: replace the value in place
if the key exists (keeping its position), else append at the end. -/
def updAssoc {α β : Type} [DecidableEq α] (k : α) (v : β) : List (α × β) → List (α × β)
  | [] => [(k, v)]
  | (k', v') :: rest => if k = k' then (k, v) :: rest else (k', v') :: updAssoc k v rest

theorem lookupA_updAssoc_self {α β : Type} [DecidableEq α] (k : α) (v : β) :
    ∀ l : List (α × β), lookupA k (updAssoc k v l) = some v := by
  intro l
  induction l with
  | nil => simp [lookupA, updAssoc]
  | cons p rest ih =>
    by_cases h : k = p.1
    · simp [lookupA, updAssoc, h]
    · simp [lookupA, updAssoc, h, ih]

theorem lookupA_updAssoc_ne {α β : Type} [DecidableEq α] (k k' : α) (v : β)
    (h : k' ≠ k) : ∀ l : List (α × β), lookupA k' (updAssoc k v l) = lookupA k' l := by
  intro l
  induction l with
  | nil => simp [lookupA, updAssoc, h]
  | cons p rest ih =>
    by_cases hk : k = p.1
    · subst hk
      simp [lookupA, updAssoc, h]
    · simp only [updAssoc, if_neg hk]
      by_cases hk' : k' = p.1
      · simp [lookupA, hk']
      · simp [lookupA, hk', ih]

/-- Keys present after an update: the new key or an old one. -/
theorem lookupA_updAssoc_isSome {α β : Type} [DecidableEq α] (k k' : α) (v : β)
    (l : List (α × β)) (h : (lookupA k' (updAssoc k v l)).isSome) :
    k' = k ∨ (lookupA k' l).isSome := by
  by_cases hk : k' = k
  · exact Or.inl hk
  · right
    rwa [lookupA_updAssoc_ne k k' v hk l] at h

/-- Strict lexicographic comparison of character lists by code point:
the order Python uses to compare strings. -/
def strLtB : List Char → List Char → Bool
  | [], [] => false
  | [], _ :: _ => true
  | _ :: _, [] => false
  | a :: as, b :: bs =>
    if a.toNat < b.toNat then true
    else if a.toNat = b.toNat then strLtB as bs
    else false

/-- Python's `<` on strings. -/
def pyStrLtB (a b : String) : Bool :=
  strLtB a.data b.data

/-- Python's `<=` on strings, as the negation of the reverse strict
comparison; `sorted` without a key arranges its result so that
consecutive elements satisfy it. -/
def pyStrLeB (a b : String) : Bool :=
  !(pyStrLtB b a)

/-- The relation `pyStrLeB` as a proposition, used as the sort
relation of Python's `sorted` on strings. -/
def pyLe (a b : String) : Prop :=
  pyStrLeB a b = true

instance : DecidableRel pyLe :=
  fun a b => inferInstanceAs (Decidable (pyStrLeB a b = true))

/-- Characters covered by the diacritic-stripping table of
`util.normalize` (NFKD decomposition followed by removal of combining
marks), modelled for the Latin letters this development uses. -/
def stripDiacritic (c : Char) : Char :=
  match c with
  | 'á' | 'à' | 'â' | 'ä' | 'Á' | 'À' | 'Â' | 'Ä' => 'a'
  | 'é' | 'è' | 'ê' | 'ë' | 'É' | 'È' | 'Ê' | 'Ë' => 'e'
  | 'í' | 'ì' | 'î' | 'ï' | 'Í' | 'Ì' | 'Î' | 'Ï' => 'i'
  | 'ó' | 'ò' | 'ô' | 'ö' | 'Ó' | 'Ò' | 'Ô' | 'Ö' => 'o'
  | 'ú' | 'ù' | 'û' | 'ü' | 'Ú' | 'Ù' | 'Û' | 'Ü' => 'u'
  | 'ñ' | 'Ñ' => 'n'
  | 'ç' | 'Ç' => 'c'
  | _ => c.toLower

/-- Model of `util.normalize` / `mwgg.normalize`: strip diacritical
marks and lowercase, so ordering ignores accents and case. -/
def normalize (s : String) : String :=
  ⟨s.data.map stripDiacritic⟩

/-- Contents of a participant-identity cell after the parse attempted
by `extract_grades` (`grades_report_parser.py` lines 426-440): the
report-local id comes from the embedded link, the display name from
the last nested span; either step may fail with a caught exception. -/
inductive PCell : Type
  | malformedId : PCell
  | malformedName (id : Nat) : PCell
  | parsed (id : Nat) (name : String) : PCell
deriving DecidableEq, Repr

/-- Contents of a received-grade cell after the parse attempted at
lines 456-471: the grader id is `None` when the link carries no
`id=` parameter (`if match_id else None`), and any exception while
parsing makes the whole cell malformed. -/
inductive RGCell : Type
  | malformed : RGCell
  | parsed (grader : Option Nat) (grade : ℚ) : RGCell
deriving DecidableEq, Repr

/-- Contents of a given-grade cell (lines 473-485): here a missing
`id=` match raises inside the `try`, so a parsed cell always carries
a gradee id. -/
inductive GVCell : Type
  | malformed : GVCell
  | parsed (gradee : Nat) (grade : ℚ) : GVCell
deriving DecidableEq, Repr

/-- Text of a submission-grade or grading-grade cell: the `'-'`
sentinel literal, a parseable number, or text `get_grade` rejects
(raising an uncaught `ValueError`). -/
inductive GradeText : Type
  | nullGrade : GradeText
  | numeric (q : ℚ) : GradeText
  | unparseable : GradeText
deriving DecidableEq, Repr

/-- One `<tr>` of the report table: the `class` attribute (absent, or
a list of class tokens) and the recognized cells found in the row by
`extract_grades`. -/
structure Row : Type where
  cls : Option (List String) := some []
  participant : Option PCell := none
  submission : Option Bool := none
  receivedCell : Option RGCell := none
  givenCell : Option GVCell := none
  submissionGrade : Option GradeText := none
  gradingGrade : Option GradeText := none
deriving DecidableEq, Repr

/-- A `<table>` element: its `<tbody>` section, when present. -/
structure TableE : Type where
  tbody : Option (List Row)
deriving DecidableEq, Repr

/-- An `<option>` of the group-selector: its `value` attribute and its
stripped text. -/
structure OptionTag : Type where
  value : String
  text : String
deriving DecidableEq, Repr

/-- The parts of the parsed report document the extractor reads: the
document's tables and the group-selector `<select>` (absent when
`soup.find` returns `None`). -/
structure Doc : Type where
  tables : List TableE
  groupSelect : Option (List OptionTag)
deriving DecidableEq, Repr

/-- Row filter of `extract_rows`: `tr.has_attr('class') and
tr['class'] in ([], ['lastrow'])`. -/
def allowedRow (r : Row) : Bool :=
  r.cls = some [] ∨ r.cls = some ["lastrow"]

/-- Model of `extract_rows` (`grades_report_parser.py` lines 317-352):
fail when the document has no table, or the first table no `<tbody>`;
otherwise keep exactly the body rows passing `allowedRow`. -/
def extractRows (d : Doc) : Except String (List Row) :=
  match d.tables with
  | [] => .error "No <table> elements found in `soup`."
  | t :: _ =>
    match t.tbody with
    | none => .error "No <tbody> found in the first table."
    | some trs => .ok (trs.filter allowedRow)

/-- Model of `extract_group_ids` (lines 257-314): fail when the group
selector is absent (attribute access on `None`); otherwise collect
into a set the stripped texts of every option whose `value` is not
`"0"` and return them sorted (plain Python `sorted`, i.e. code-point
lexicographic order on the raw strings). -/
def extractGroupIds (d : Doc) : Except String (List String) :=
  match d.groupSelect with
  | none => .error "AttributeError: NoneType has no attribute find_all"
  | some opts =>
    .ok (List.insertionSort pyLe
      (((opts.filter (fun o => o.value ≠ "0")).map (fun o => o.text)).dedup))

/-- Per-participant record of `extract_grades` while keyed by
report-local view ids (the value stored at line 441): submitted flag,
received grades keyed by grader view id (possibly `None`), given
grades keyed by gradee view id, and the two Moodle grades where
`Option.none` stands for the `'-'` sentinel. -/
structure RawRecord : Type where
  submitted : Bool
  received : List (Option Nat × ℚ)
  given : List (Nat × ℚ)
  submission : Option ℚ
  grading : Option ℚ
deriving DecidableEq, Repr

/-- Fresh record installed by `view_id_to_grades[participant_view_id] = {...}`. -/
def emptyRecord : RawRecord :=
  ⟨false, [], [], none, none⟩

/-- Per-participant record after the final remap to display names:
the shape of `grades_from_report` consumed by the aggregator. -/
structure ReportRecord : Type where
  submitted : Bool
  received : List (String × ℚ)
  given : List (String × ℚ)
  submission : Option ℚ
  grading : Option ℚ
deriving DecidableEq, Repr

/-- Mutable state of the row loop of `extract_grades`: the dicts
`view_id_to_grades` and `view_id_to_alt`, plus the Python variable
`participant_view_id` (`none` before its first assignment, when
reading it raises `NameError`). -/
structure BState : Type where
  table : List (Nat × RawRecord)
  alts : List (Nat × String)
  current : Option Nat
deriving DecidableEq, Repr

/-- Initial state of the row loop. -/
def initState : BState :=
  ⟨[], [], none⟩

/-- Participant-cell section (lines 421-447).  The `try` block may set
`participant_view_id` and `view_id_to_alt`; whether or not it failed,
line 441 then runs outside the `try` and installs a fresh record under
the current value of `participant_view_id` — raising `NameError` when
that variable was never assigned. -/
def stepParticipant (st : BState) (cell : Option PCell) : Except String BState :=
  match cell with
  | none => .ok st
  | some pc =>
    let st1 : BState :=
      match pc with
      | .parsed id name => { st with alts := updAssoc id name st.alts, current := some id }
      | .malformedName id => { st with current := some id }
      | .malformedId => st
    match st1.current with
    | none => .error "NameError: participant_view_id is not defined"
    | some pid => .ok { st1 with table := updAssoc pid emptyRecord st1.table }

/-- Submission-cell section (lines 450-454): when a title link is
present, set the current participant's `submitted` flag (an uncaught
`NameError`/`KeyError` when there is no current participant). -/
def stepSubmission (st : BState) (cell : Option Bool) : Except String BState :=
  match cell with
  | none => .ok st
  | some false => .ok st
  | some true =>
    match st.current with
    | none => .error "NameError: participant_view_id is not defined"
    | some pid =>
      match lookupA pid st.table with
      | none => .error "KeyError: participant_view_id"
      | some rec =>
        .ok { st with table := updAssoc pid { rec with submitted := true } st.table }

/-- Received-grade section (lines 456-471).  The whole block sits in a
`try`, so a malformed cell — or a missing current participant — is
skipped with a diagnostic and never fails. -/
def stepReceived (st : BState) (cell : Option RGCell) : BState :=
  match cell with
  | none => st
  | some .malformed => st
  | some (.parsed grader g) =>
    match st.current with
    | none => st
    | some pid =>
      match lookupA pid st.table with
      | none => st
      | some rec =>
        { st with table :=
            updAssoc pid { rec with received := updAssoc grader g rec.received } st.table }

/-- Given-grade section (lines 473-485), likewise inside a `try`. -/
def stepGiven (st : BState) (cell : Option GVCell) : BState :=
  match cell with
  | none => st
  | some .malformed => st
  | some (.parsed gradee g) =>
    match st.current with
    | none => st
    | some pid =>
      match lookupA pid st.table with
      | none => st
      | some rec =>
        { st with table :=
            updAssoc pid { rec with given := updAssoc gradee g rec.given } st.table }

/-- Submission-grade section (lines 487-495): the `'-'` sentinel is
left in place, other text goes through `get_grade` with no enclosing
`try`, so an unparseable grade raises an uncaught `ValueError`. -/
def stepSubGrade (st : BState) (cell : Option GradeText) : Except String BState :=
  match cell with
  | none => .ok st
  | some .nullGrade => .ok st
  | some .unparseable => .error "ValueError: could not convert string to float"
  | some (.numeric q) =>
    match st.current with
    | none => .error "NameError: participant_view_id is not defined"
    | some pid =>
      match lookupA pid st.table with
      | none => .error "KeyError: participant_view_id"
      | some rec =>
        .ok { st with table := updAssoc pid { rec with submission := some q } st.table }

/-- Grading-grade section (lines 497-505), same shape as the
submission grade. -/
def stepGradingGrade (st : BState) (cell : Option GradeText) : Except String BState :=
  match cell with
  | none => .ok st
  | some .nullGrade => .ok st
  | some .unparseable => .error "ValueError: could not convert string to float"
  | some (.numeric q) =>
    match st.current with
    | none => .error "NameError: participant_view_id is not defined"
    | some pid =>
      match lookupA pid st.table with
      | none => .error "KeyError: participant_view_id"
      | some rec =>
        .ok { st with table := updAssoc pid { rec with grading := some q } st.table }

/-- One iteration of the row loop of `extract_grades`, visiting the
six cell sections in program order. -/
def processRow (st : BState) (row : Row) : Except String BState := do
  let st ← stepParticipant st row.participant
  let st ← stepSubmission st row.submission
  let st := stepReceived st row.receivedCell
  let st := stepGiven st row.givenCell
  let st ← stepSubGrade st row.submissionGrade
  stepGradingGrade st row.gradingGrade

/-- The full row loop. -/
def buildState (rows : List Row) : Except String BState :=
  rows.foldlM processRow initState

/-- Inner loop of the symmetry check (lines 509-513) for one gradee:
look up each grader of `received` in the table (a `KeyError` when the
grader — possibly `None` — is absent), then compare the received grade
with the grade that grader's record lists as given to the gradee. -/
def checkEntry (table : List (Nat × RawRecord)) (gradee : Nat) :
    List (Option Nat × ℚ) → Except String Unit
  | [] => .ok ()
  | (grader, g) :: rest =>
    match grader with
    | none => .error "KeyError: None"
    | some gid =>
      match lookupA gid table with
      | none => .error "KeyError: grader view id"
      | some recB =>
        match lookupA gradee recB.given with
        | none => .error "KeyError: gradee view id"
        | some g' =>
          if g = g' then checkEntry table gradee rest
          else .error "Error parsing grades"

/-- Outer loop of the symmetry check over every table entry. -/
def checkSymmetryAux (table : List (Nat × RawRecord)) :
    List (Nat × RawRecord) → Except String Unit
  | [] => .ok ()
  | (gradee, rec) :: rest => do
    checkEntry table gradee rec.received
    checkSymmetryAux table rest

/-- Symmetry consistency check of `extract_grades` (lines 507-513). -/
def checkSymmetry (table : List (Nat × RawRecord)) : Except String Unit :=
  checkSymmetryAux table table

/-- Duplicate-name check of `extract_grades` (lines 514-515),
translated verbatim: it compares `len(view_id_to_alt)` against
`len(set(view_id_to_alt.keys()))` — the dict's key count against the
count of its deduplicated keys. -/
def dupNameCheck (alts : List (Nat × String)) : Except String Unit :=
  if alts.length > (alts.map Prod.fst).dedup.length then
    .error "Different users have identical full names"
  else
    .ok ()

/-- Remap a received-grades dict from grader view ids to display
names (lines 521-523): `view_id_to_alt[grader_view_id]` raises
`KeyError` when the grader id (possibly `None`) has no recorded name;
duplicate names collapse by dict assignment. -/
def remapReceived (alts : List (Nat × String)) :
    List (Option Nat × ℚ) → List (String × ℚ) → Except String (List (String × ℚ))
  | [], acc => .ok acc
  | (grader, g) :: rest, acc =>
    match grader with
    | none => .error "KeyError: None"
    | some gid =>
      match lookupA gid alts with
      | none => .error "KeyError: grader view id"
      | some name => remapReceived alts rest (updAssoc name g acc)

/-- Remap a given-grades dict from gradee view ids to display names
(lines 524-526). -/
def remapGiven (alts : List (Nat × String)) :
    List (Nat × ℚ) → List (String × ℚ) → Except String (List (String × ℚ))
  | [], acc => .ok acc
  | (gradee, g) :: rest, acc =>
    match lookupA gradee alts with
    | none => .error "KeyError: gradee view id"
    | some name => remapGiven alts rest (updAssoc name g acc)

/-- Final remap loop of `extract_grades` (lines 518-534): rekey every
record from view ids to display names, collapsing duplicate names by
dict assignment. -/
def remapAll (alts : List (Nat × String)) :
    List (Nat × RawRecord) → List (String × ReportRecord) →
    Except String (List (String × ReportRecord))
  | [], acc => .ok acc
  | (pid, rec) :: rest, acc =>
    match lookupA pid alts with
    | none => .error "KeyError: participant view id"
    | some alt => do
      let recv ← remapReceived alts rec.received []
      let giv ← remapGiven alts rec.given []
      remapAll alts rest
        (updAssoc alt ⟨rec.submitted, recv, giv, rec.submission, rec.grading⟩ acc)

/-- Model of `extract_grades` applied to an already extracted row
list: run the row loop, the two sanity checks, then the remap. -/
def extractGradesRows (rows : List Row) : Except String (List (String × ReportRecord)) := do
  let st ← buildState rows
  checkSymmetry st.table
  dupNameCheck st.alts
  remapAll st.alts st.table []

/-- Model of `extract_grades` (lines 376-534) on a whole document. -/
def extractGrades (d : Doc) : Except String (List (String × ReportRecord)) := do
  let rows ← extractRows d
  extractGradesRows rows

/-- Model of `moodle_models.User`: the id number is parsed leniently
by `from_participants_csv`, so it may be `None`. -/
structure UserN : Type where
  first_name : String
  last_name : String
  id_number : Option Nat
  email : String
  group_ids : List String
deriving DecidableEq, Repr

/-- Derived display name, `f-string` of first and last name. -/
def UserN.full_name (u : UserN) : String :=
  u.first_name ++ " " ++ u.last_name

/-- Model of `User.__repr__` in `moodle_models.py`: the class name,
the quoted full name and the id number. -/
def UserN.reprStr (u : UserN) : String :=
  "User(" ++ "'" ++ u.full_name ++ "'" ++ ", " ++
    (match u.id_number with
     | none => "None"
     | some n => toString n) ++ ")"

/-- Comparison of `User.__lt__` in `moodle_models.py`: normalized
last name, normalized first name, id number as tiebreaker. -/
def UserN.ltB (a b : UserN) : Bool :=
  pyStrLtB (normalize a.last_name) (normalize b.last_name) ||
    (decide (normalize a.last_name = normalize b.last_name) &&
      (pyStrLtB (normalize a.first_name) (normalize b.first_name) ||
        (decide (normalize a.first_name = normalize b.first_name) &&
          decide (a.id_number.getD 0 < b.id_number.getD 0))))

/-- Model of `moodle_models.Group`: identifier and member tuple. -/
structure GroupN : Type where
  group_id : String
  members : List UserN
deriving DecidableEq, Repr

/-- Member list built by `Group.__init__` in `moodle_models.py`: keep
the candidates whose `group_ids` name this group, sorted by `repr`. -/
def mkGroupN (gid : String) (candidates : List UserN) : GroupN :=
  ⟨gid, List.insertionSort (fun a b => pyStrLeB a.reprStr b.reprStr = true)
      (candidates.filter (fun u => decide (gid ∈ u.group_ids)))⟩

/-- Append a user under a group id in the `defaultdict(list)` of
`Course.get_groups`: extend the list in place when the key exists,
else append a new key at the end. -/
def pushAssoc (k : String) (u : UserN) :
    List (String × List UserN) → List (String × List UserN)
  | [] => [(k, [u])]
  | (k', us) :: rest =>
    if k = k' then (k, us ++ [u]) :: rest else (k', us) :: pushAssoc k u rest

/-- The `defaultdict(list)` of `Course.get_groups` (lines 349-352):
for each user in order, append the user under each of their group
ids. -/
def getGroupsMapping (users : List UserN) : List (String × List UserN) :=
  users.foldl (fun acc u => u.group_ids.foldl (fun acc gid => pushAssoc gid u acc) acc) []

/-- Model of `Course.get_groups` (lines 348-355): build one group per
mapping key and sort the groups by the normalized `repr`. -/
def getGroups (users : List UserN) : List GroupN :=
  List.insertionSort
    (fun a b =>
      pyStrLeB (normalize ("Group(" ++ "'" ++ a.group_id ++ "'" ++ ")"))
        (normalize ("Group(" ++ "'" ++ b.group_id ++ "'" ++ ")")) = true)
    ((getGroupsMapping users).map (fun p => mkGroupN p.1 p.2))

/-- Model of `moodle_models.Course`: id, sorted users, groups derived
from the users. -/
structure CourseN : Type where
  course_id : Nat
  users : List UserN
  groups : List GroupN
deriving DecidableEq, Repr

/-- Model of `Course.__init__` in `moodle_models.py` (lines 340-343):
sort the users, then derive the groups from them; no consistency
violation is possible because membership is recomputed from the
users' own `group_ids`. -/
def mkCourseN (cid : Nat) (users : List UserN) : CourseN :=
  let sorted := List.insertionSort (fun a b => UserN.ltB b a = false) users
  ⟨cid, sorted, getGroups sorted⟩

/-- Model of `mwgg.User`: this revision requires a numeric id. -/
structure UserM : Type where
  first_name : String
  last_name : String
  id_number : Nat
  email : String
  group_ids : List String
deriving DecidableEq, Repr

/-- Comparison of `User.__lt__` in `mwgg.py`: normalized last name
then normalized first name, no tiebreaker. -/
def UserM.ltB (a b : UserM) : Bool :=
  pyStrLtB (normalize a.last_name) (normalize b.last_name) ||
    (decide (normalize a.last_name = normalize b.last_name) &&
      pyStrLtB (normalize a.first_name) (normalize b.first_name))

/-- Model of `mwgg.Group`: identifier and member tuple, taken as
given (this revision's `Course` receives the groups from outside). -/
structure GroupM : Type where
  group_id : String
  members : List UserM
deriving DecidableEq, Repr

/-- Model of `mwgg.Course`. -/
structure CourseM : Type where
  course_id : Nat
  users : List UserM
  groups : List GroupM
deriving DecidableEq, Repr

/-- Decidable form of the group-consistency condition checked by
`Course.__init__` in `mwgg.py` (lines 322-328): the set of users
declaring membership in the group equals the set of the group's
members. -/
def sameMembers (users : List UserM) (g : GroupM) : Bool :=
  (users.filter (fun u => decide (g.group_id ∈ u.group_ids))).all
      (fun u => decide (u ∈ g.members)) &&
    g.members.all
      (fun m => decide (m ∈ users.filter (fun u => decide (g.group_id ∈ u.group_ids))))

/-- The sanity loop of `Course.__init__` in `mwgg.py`: raise
`ValueError` at the first malformed group. -/
def checkGroupsM (users : List UserM) : List GroupM → Except String Unit
  | [] => .ok ()
  | g :: rest =>
    if sameMembers users g then checkGroupsM users rest
    else .error ("Group " ++ g.group_id ++ " is malformed")

/-- Model of `Course.__init__` in `mwgg.py` (lines 315-328): sort the
users by `__lt__` and the groups by raw `group_id`, then run the
bidirectional membership check; a violation aborts construction. -/
def mkCourseM (cid : Nat) (users : List UserM) (groups : List GroupM) :
    Except String CourseM :=
  match checkGroupsM users
      (List.insertionSort (fun a b => pyStrLeB a.group_id b.group_id = true) groups) with
  | .error e => .error e
  | .ok () =>
    .ok ⟨cid, List.insertionSort (fun a b => UserM.ltB b a = false) users,
      List.insertionSort (fun a b => pyStrLeB a.group_id b.group_id = true) groups⟩

/-- Value held at a full name by the `grades` dict during
`compute_grades`: `none` models a freshly assigned empty inner dict
(no `'submission'` key yet), `some v` an inner dict whose
`'submission'` key holds `v`, where `v = none` is the `'-'`
sentinel. -/
abbrev SubEntry : Type := Option (Option ℚ)

/-- Model of `Workshop.get_workshop_groups` (`moodle_models.py` lines
481-496): the course groups whose id appears in the report's group-id
list. -/
def getWorkshopGroups (groups : List GroupN) (groupIds : List String) : List GroupN :=
  groups.filter (fun g => decide (g.group_id ∈ groupIds))

/-- The `grades[full_name] = dict()` assignments of the first member
loop of `compute_grades` (line 509). -/
def groupReset (gs : List (String × SubEntry)) (names : List String) :
    List (String × SubEntry) :=
  names.foldl (fun a n => updAssoc n none a) gs

/-- The pooling of the first member loop (lines 510-516): look every
member name up in `grades_from_report` (an uncaught `KeyError` when a
member never appeared in the report) and concatenate the values of
their `received` dicts, in member order. -/
def groupPool (report : List (String × ReportRecord)) :
    List String → Except String (List ℚ)
  | [] => .ok []
  | n :: rest =>
    match lookupA n report with
    | none => .error "KeyError: full name missing from report"
    | some r => (groupPool report rest).map (fun p => r.received.map Prod.snd ++ p)

/-- Lines 517-520: the group grade is the sum of the pool divided by
its length, or the `'-'` sentinel when the pool is empty. -/
def meanOrNull (pool : List ℚ) : Option ℚ :=
  if pool = [] then none else some (pool.sum / pool.length)

/-- Second member loop (lines 521-525): a member who submitted gets
the group grade as submission component, a member who did not gets
numeric zero. -/
def groupAssign (report : List (String × ReportRecord)) (groupGrade : Option ℚ)
    (gs : List (String × SubEntry)) :
    List String → Except String (List (String × SubEntry))
  | [] => .ok gs
  | n :: rest =>
    match lookupA n report with
    | none => .error "KeyError: full name missing from report"
    | some r =>
      groupAssign report groupGrade
        (updAssoc n (some (if r.submitted then groupGrade else some 0)) gs) rest

/-- One iteration of the group loop of `compute_grades` (lines
502-525).  The Python loop interleaves the `grades[full_name] =
dict()` resets with the pooling inside a single pass over the
members; since a raised `KeyError` discards the whole computation,
performing all resets first, then the pooling, then the assignments
yields the same `Except` result. -/
def processGroupN (report : List (String × ReportRecord)) (gs : List (String × SubEntry))
    (g : GroupN) : Except String (List (String × SubEntry)) :=
  (groupPool report (g.members.map UserN.full_name)).bind
    (fun pool =>
      groupAssign report (meanOrNull pool)
        (groupReset gs (g.members.map UserN.full_name)) (g.members.map UserN.full_name))

/-- The group submission score the aggregator computes for one group:
the `group_grade` value of lines 504-520. -/
def aggregatorGroupScore (report : List (String × ReportRecord)) (g : GroupN) :
    Except String (Option ℚ) :=
  (groupPool report (g.members.map UserN.full_name)).map meanOrNull

/-- Final loop of `compute_grades` (lines 526-533): for every entry
of `grades`, read its submission component (a `KeyError` if the inner
dict never got one), coerce a `'-'` assessment to zero, and add.  The
submission component is *not* coerced: adding the `'-'` string to a
number raises an uncaught `TypeError`, contradicting the comment at
line 527. -/
def overallLoop (report : List (String × ReportRecord)) :
    List (String × SubEntry) → Except String (List (String × ℚ × ℚ))
  | [] => .ok []
  | (n, e) :: rest =>
    match e with
    | none => .error "KeyError: submission"
    | some sub =>
      match lookupA n report with
      | none => .error "KeyError: full name missing from report"
      | some r =>
        let assessment : ℚ := match r.grading with | none => 0 | some a => a
        match sub with
        | none => .error "TypeError: unsupported operand types str and float"
        | some s =>
          (overallLoop report rest).map (fun out => (n, s, s + assessment) :: out)

/-- Model of `Workshop.compute_grades` in `moodle_models.py` (lines
499-534), taking as inputs the report grade table
(`grades_from_report`), the course's sorted group tuple and the
report's group-id list. -/
def computeGrades (report : List (String × ReportRecord)) (groups : List GroupN)
    (groupIds : List String) : Except String (List (String × ℚ × ℚ)) := do
  let gs ← (getWorkshopGroups groups groupIds).foldlM (processGroupN report) []
  overallLoop report gs

/-- Grades a participant (by display name) received from peers
according to the report, as a list of values. -/
def receivedVals (report : List (String × ReportRecord)) (n : String) : List ℚ :=
  match lookupA n report with
  | some r => r.received.map Prod.snd
  | none => []

/-- Grades a member received from peers according to the report, as a
list of values. -/
def reportReceived (report : List (String × ReportRecord)) (m : UserN) : List ℚ :=
  receivedVals report m.full_name

/-- Worded from the spec (section 4.6 step 2): the pool obtained by
pooling every grade any member of the group received from any peer,
values only, duplicate-source contributions counted and not
deduplicated — hence a multiset. -/
def specPool (report : List (String × ReportRecord)) (g : GroupN) : Multiset ℚ :=
  (g.members.map (fun m => (↑(reportReceived report m) : Multiset ℚ))).sum

/-- Worded from the spec (section 4.6 step 3): the group submission
score is the arithmetic mean of the pool, or the "no grade" sentinel
when the pool is empty. -/
def specGroupScore (report : List (String × ReportRecord)) (g : GroupN) : Option ℚ :=
  if specPool report g = 0 then none
  else some ((specPool report g).sum / (specPool report g).card)

/-- A list is sorted by normalized text when consecutive elements are
in normalized (case- and diacritic-insensitive) order. -/
def sortedByNormalized (l : List String) : Prop :=
  l.Sorted (fun a b => pyLe (normalize a) (normalize b))

/-- Correspondence condition for one received-grade entry: the grader
exists in the table and their `given` dict lists the same grade for
the gradee. -/
def receivedMatches (table : List (Nat × RawRecord)) (gradee : Nat)
    (e : Option Nat × ℚ) : Prop :=
  ∃ gid, e.1 = some gid ∧
    ∃ recB, lookupA gid table = some recB ∧ lookupA gradee recB.given = some e.2

/-- Grade symmetry of a peer-grade table: every received grade is
mirrored by the grader's given grade. -/
def symmetric (table : List (Nat × RawRecord)) : Prop :=
  ∀ p ∈ table, ∀ e ∈ p.2.received, receivedMatches table p.1 e

/-- Bidirectional group-membership consistency of `mwgg.Course`: the
members of a group are exactly the users declaring its id. -/
def groupConsistentM (users : List UserM) (g : GroupM) : Prop :=
  ∀ u, u ∈ g.members ↔ (u ∈ users ∧ g.group_id ∈ u.group_ids)

/-- The submission score `compute_grades` derives for a group whose
members all appear in the report: the mean of the concatenated
received grades, or the sentinel for an empty pool. -/
def codeGroupScore (report : List (String × ReportRecord)) (g : GroupN) : Option ℚ :=
  meanOrNull (g.members.map (reportReceived report)).flatten

/-- The submission entry `compute_grades` stores for a member of a
group whose grade is `gg`: the group grade when the member submitted,
numeric zero otherwise. -/
def assignedValue (r : ReportRecord) (gg : Option ℚ) : SubEntry :=
  some (if r.submitted then gg else some 0)

theorem strLtB_nil_right : ∀ z : List Char, strLtB z [] = false
  | [] => rfl
  | _ :: _ => rfl

theorem strLtB_asymm : ∀ x y : List Char, strLtB x y = true → strLtB y x = false
  | [], [] => by simp [strLtB]
  | [], _ :: _ => by simp [strLtB]
  | _ :: _, [] => by simp [strLtB]
  | a :: as, b :: bs => by
    intro h
    by_cases hab : a.toNat < b.toNat
    · simp only [strLtB]
      rw [if_neg (by omega : ¬ b.toNat < a.toNat), if_neg (by omega : ¬ b.toNat = a.toNat)]
    · by_cases heq : a.toNat = b.toNat
      · have h' : strLtB as bs = true := by simpa [strLtB, hab, heq] using h
        have ih := strLtB_asymm as bs h'
        simp [strLtB, (by omega : ¬ b.toNat < a.toNat), heq.symm, ih]
      · simp [strLtB, hab, heq] at h

theorem strLtB_le_trans :
    ∀ x y z : List Char, strLtB y x = false → strLtB z y = false → strLtB z x = false
  | [], _, z => fun _ _ => strLtB_nil_right z
  | _ :: _, [], _ => by intro h _; simp [strLtB] at h
  | _ :: _, _ :: _, [] => by intro _ h; simp [strLtB] at h
  | a :: as, b :: bs, c :: cs => by
    intro h1 h2
    have hba : ¬ b.toNat < a.toNat := by
      intro hc; simp [strLtB, hc] at h1
    have hcb : ¬ c.toNat < b.toNat := by
      intro hc; simp [strLtB, hc] at h2
    have hca : ¬ c.toNat < a.toNat := by omega
    by_cases hceq : c.toNat = a.toNat
    · have hbeq : b.toNat = a.toNat := by omega
      have hcbeq : c.toNat = b.toNat := by omega
      have h1' : strLtB bs as = false := by simpa [strLtB, hba, hbeq] using h1
      have h2' : strLtB cs bs = false := by simpa [strLtB, hcb, hcbeq] using h2
      have ih := strLtB_le_trans as bs cs h1' h2'
      simp [strLtB, hca, hceq, ih]
    · simp [strLtB, hca, hceq]

instance : IsTotal String pyLe := by
  constructor
  intro a b
  unfold pyLe pyStrLeB pyStrLtB
  by_cases h : strLtB b.data a.data = true
  · right
    simp [strLtB_asymm b.data a.data h]
  · left
    simp [Bool.not_eq_true] at h
    simp [h]

instance : IsTrans String pyLe := by
  constructor
  intro a b c hab hbc
  unfold pyLe pyStrLeB pyStrLtB at *
  simp only [Bool.not_eq_true'] at *
  exact strLtB_le_trans a.data b.data c.data hab hbc

theorem checkEntry_ok_iff (table : List (Nat × RawRecord)) (gradee : Nat) :
    ∀ recv : List (Option Nat × ℚ),
      checkEntry table gradee recv = .ok () ↔ ∀ e ∈ recv, receivedMatches table gradee e
  | [] => by simp [checkEntry]
  | (grader, g) :: rest => by
    cases grader with
    | none =>
      simp only [checkEntry]
      constructor
      · intro h
        simp at h
      · intro h
        exact absurd (h (none, g) (by simp)) (by simp [receivedMatches])
    | some gid =>
      cases hl : lookupA gid table with
      | none =>
        simp only [checkEntry, hl]
        constructor
        · intro h
          simp at h
        · intro h
          obtain ⟨gid', hgid, recB, hrecB, _⟩ := h (some gid, g) (by simp)
          cases hgid
          rw [hl] at hrecB
          cases hrecB
      | some recB =>
        cases hg : lookupA gradee recB.given with
        | none =>
          simp only [checkEntry, hl, hg]
          constructor
          · intro h
            simp at h
          · intro h
            obtain ⟨gid', hgid, recB', hrecB, hgiven⟩ := h (some gid, g) (by simp)
            cases hgid
            rw [hl] at hrecB
            cases hrecB
            rw [hg] at hgiven
            cases hgiven
        | some g' =>
          by_cases hgg : g = g'
          · subst hgg
            simp only [checkEntry, hl, hg, if_pos rfl, if_true, eq_self_iff_true]
            rw [checkEntry_ok_iff table gradee rest]
            constructor
            · intro h e he
              rcases List.mem_cons.mp he with he | he
              · subst he
                exact ⟨gid, rfl, recB, hl, hg⟩
              · exact h e he
            · intro h e he
              exact h e (List.mem_cons_of_mem _ he)
          · simp only [checkEntry, hl, hg, if_neg hgg]
            constructor
            · intro h
              simp at h
            · intro h
              obtain ⟨gid', hgid, recB', hrecB, hgiven⟩ := h (some gid, g) (by simp)
              cases hgid
              rw [hl] at hrecB
              cases hrecB
              rw [hg] at hgiven
              simp only [Option.some.injEq] at hgiven
              exact (hgg hgiven.symm).elim

theorem checkSymmetryAux_ok_iff (table : List (Nat × RawRecord)) :
    ∀ l : List (Nat × RawRecord),
      checkSymmetryAux table l = .ok () ↔
        ∀ p ∈ l, ∀ e ∈ p.2.received, receivedMatches table p.1 e
  | [] => by simp [checkSymmetryAux]
  | (gradee, rec) :: rest => by
    have hunf : checkSymmetryAux table ((gradee, rec) :: rest) =
        (checkEntry table gradee rec.received).bind
          (fun _ => checkSymmetryAux table rest) := rfl
    rw [hunf]
    cases hc : checkEntry table gradee rec.received with
    | error e =>
      constructor
      · intro h
        exact Except.noConfusion (show Except.error e = Except.ok () from h)
      · intro h
        have hok : checkEntry table gradee rec.received = .ok () :=
          (checkEntry_ok_iff table gradee rec.received).mpr
            (fun e' he' => h (gradee, rec) (by simp) e' he')
        rw [hc] at hok
        cases hok
    | ok u =>
      cases u
      show checkSymmetryAux table rest = Except.ok () ↔ _
      rw [checkSymmetryAux_ok_iff table rest]
      constructor
      · intro h p hp e he
        rcases List.mem_cons.mp hp with hp | hp
        · subst hp
          exact (checkEntry_ok_iff table gradee rec.received).mp hc e he
        · exact h p hp e he
      · intro h p hp e he
        exact h p (List.mem_cons_of_mem _ hp) e he

/-- C3: the symmetry check of `extract_grades` succeeds exactly when
every grade a participant's record lists as received from a peer
equals the grade that peer's record lists as given to them (a missing
counterpart counts as a mismatch); any mismatch makes the builder
raise a fatal error, and with no mismatch the check returns
normally. -/
theorem c3_symmetry_check_iff (table : List (Nat × RawRecord)) :
    checkSymmetry table = .ok () ↔ symmetric table :=
  checkSymmetryAux_ok_iff table table

/-- C2: on an active group whose single member submitted but whose
pool of received grades is empty, the group score is the `'-'`
sentinel and `compute_grades` of `moodle_models.py` raises an
uncaught `TypeError` adding it to the member's assessment grade 42,
instead of producing the overall grade 42 the claim states. -/
theorem c2_sentinel_submission_raises_typeerror :
    computeGrades [("John Doe", ⟨true, [], [], none, some 42⟩)]
      [⟨"A", [⟨"John", "Doe", some 1, "jd@example.com", ["A"]⟩]⟩] ["A"] =
      .error "TypeError: unsupported operand types str and float" := by
  rfl

/-- C4: two distinct participants (view ids 1 and 2) share the
display name "John Doe", yet `extract_grades` returns a grade table
(with the two records silently collapsed into one) instead of raising
the fatal duplicate-name error: the check at line 514 compares the
dict's size against the count of its deduplicated keys, which are
always equal. -/
theorem c4_duplicate_names_not_detected :
    extractGradesRows
      [{ participant := some (.parsed 1 "John Doe") },
       { participant := some (.parsed 2 "John Doe") }] =
      .ok [("John Doe", ⟨false, [], [], none, none⟩)] := by
  rfl

/-- C8: participant 1 ("Ann") has a well-formed row with a submission
title, and the next row's identity cell is malformed.  Instead of
dropping only the malformed row, line 441 (outside the `try`) reuses
the stale `participant_view_id` and resets Ann's record, so her
`submitted` flag comes out `false`: another participant's data is
altered. -/
theorem c8_malformed_identity_cell_corrupts_previous :
    extractGradesRows
      [{ participant := some (.parsed 1 "Ann"), submission := some true },
       { participant := some .malformedId }] =
      .ok [("Ann", ⟨false, [], [], none, none⟩)] := by
  rfl

/-- C6 counterexample: the roster participant "Ann Ab" belongs to the
active group "A" but her display name never appears in the (empty)
report grade table; the aggregator raises a `KeyError` instead of
completing without error and omitting her. -/
theorem c6_counterexample_member_absent_from_report :
    computeGrades [] [⟨"A", [⟨"Ann", "Ab", some 1, "ann@example.com", ["A"]⟩]⟩] ["A"] =
      .error "KeyError: full name missing from report" := by
  rfl

/-- C9 counterexample: with options "Ángel" and "Zoe" (plus the
"all participants" sentinel), `extract_group_ids` returns
`["Zoe", "Ángel"]` — sorted by raw code points, not by the normalized
text, under which "angel" precedes "zoe". -/
theorem c9_counterexample_sort_not_normalized :
    extractGroupIds
        ⟨[], some [⟨"0", "All participants"⟩, ⟨"1", "Ángel"⟩, ⟨"2", "Zoe"⟩]⟩ =
      .ok ["Zoe", "Ángel"] ∧ ¬ sortedByNormalized ["Zoe", "Ángel"] := by
  constructor
  · rfl
  · intro h
    have h' := List.rel_of_sorted_cons h "Ángel" (by simp)
    revert h'
    decide

/-- C7: `extract_rows` fails when the document has no table or the
first table has no body section; otherwise it returns exactly the
body rows of the first table whose class attribute is the empty tag
list ("unclassified") or the single tag `lastrow`, and every returned
row is in one of those two states. -/
theorem c7_extract_rows_characterization (d : Doc) :
    ((d.tables = [] ∨ ∃ t ts, d.tables = t :: ts ∧ t.tbody = none) →
      ∃ e, extractRows d = .error e) ∧
    (∀ rows, extractRows d = .ok rows →
      ∃ t ts body, d.tables = t :: ts ∧ t.tbody = some body ∧
        rows = body.filter allowedRow ∧
        ∀ r ∈ rows, r.cls = some [] ∨ r.cls = some ["lastrow"]) := by
  obtain ⟨tables, gsel⟩ := d
  cases tables with
  | nil =>
    constructor
    · intro _
      exact ⟨_, rfl⟩
    · intro rows h
      exact Except.noConfusion h
  | cons t ts =>
    obtain ⟨tb⟩ := t
    cases tb with
    | none =>
      constructor
      · intro _
        exact ⟨_, rfl⟩
      · intro rows h
        exact Except.noConfusion h
    | some body =>
      constructor
      · rintro (hnil | ⟨t', ts', htt, hb⟩)
        · exact List.noConfusion hnil
        · injection htt with h1 _
          subst h1
          exact Option.noConfusion hb
      · intro rows h
        have hh : List.filter allowedRow body = rows := by
          injection h
        refine ⟨⟨some body⟩, ts, body, rfl, rfl, hh.symm, ?_⟩
        intro r hr
        rw [← hh] at hr
        have := (List.mem_filter.mp hr).2
        simpa [allowedRow] using this

/-- Witness for the error half of the `extract_rows`
characterization at a concrete document with no table. -/
theorem c7_witness : ∃ e, extractRows ⟨[], none⟩ = .error e :=
  (c7_extract_rows_characterization ⟨[], none⟩).1 (Or.inl rfl)

theorem sameMembers_iff (users : List UserM) (g : GroupM) :
    sameMembers users g = true ↔ groupConsistentM users g := by
  unfold sameMembers groupConsistentM
  rw [Bool.and_eq_true, List.all_eq_true, List.all_eq_true]
  constructor
  · rintro ⟨h1, h2⟩ u
    constructor
    · intro hu
      have hm := of_decide_eq_true (h2 u hu)
      have hf := List.mem_filter.mp hm
      exact ⟨hf.1, of_decide_eq_true hf.2⟩
    · rintro ⟨hu, hgid⟩
      have hm : u ∈ users.filter (fun u => decide (g.group_id ∈ u.group_ids)) :=
        List.mem_filter.mpr ⟨hu, decide_eq_true hgid⟩
      exact of_decide_eq_true (h1 u hm)
  · intro h
    constructor
    · intro u hu
      have hf := List.mem_filter.mp hu
      exact decide_eq_true ((h u).mpr ⟨hf.1, of_decide_eq_true hf.2⟩)
    · intro m hm
      have hc := (h m).mp hm
      exact decide_eq_true (List.mem_filter.mpr ⟨hc.1, decide_eq_true hc.2⟩)

theorem checkGroupsM_ok_iff (users : List UserM) :
    ∀ l : List GroupM,
      checkGroupsM users l = .ok () ↔ ∀ g ∈ l, sameMembers users g = true
  | [] => by simp [checkGroupsM]
  | g :: rest => by
    unfold checkGroupsM
    by_cases h : sameMembers users g = true
    · rw [if_pos h, checkGroupsM_ok_iff users rest]
      constructor
      · intro hr g' hg'
        rcases List.mem_cons.mp hg' with hg' | hg'
        · subst hg'
          exact h
        · exact hr g' hg'
      · intro hall g' hg'
        exact hall g' (List.mem_cons_of_mem _ hg')
    · rw [if_neg h]
      constructor
      · intro hr
        cases hr
      · intro hall
        exact absurd (hall g (by simp)) h

/-- C5: a successfully constructed `mwgg.Course` has, for every group
it holds, members exactly equal to the set of its users whose
group-id set contains the group's identifier; and when some input
group violates that equality, construction raises a fatal error
instead of returning a course. -/
theorem c5_group_membership_consistency (cid : Nat) (users : List UserM)
    (groups : List GroupM) :
    (∀ c, mkCourseM cid users groups = .ok c →
      ∀ g ∈ c.groups, groupConsistentM c.users g) ∧
    ((∃ g ∈ groups, ¬ groupConsistentM users g) →
      ∃ e, mkCourseM cid users groups = .error e) := by
  have hgperm :=
    List.perm_insertionSort (fun a b : GroupM => pyStrLeB a.group_id b.group_id = true) groups
  have huperm := List.perm_insertionSort (fun a b : UserM => UserM.ltB b a = false) users
  constructor
  · intro c hc g hg
    unfold mkCourseM at hc
    cases hcheck : checkGroupsM users
        (List.insertionSort (fun a b => pyStrLeB a.group_id b.group_id = true) groups) with
    | error e =>
      rw [hcheck] at hc
      cases hc
    | ok u =>
      cases u
      rw [hcheck] at hc
      injection hc with hc
      subst hc
      have hsame := (checkGroupsM_ok_iff users _).mp hcheck g hg
      have hcons := (sameMembers_iff users g).mp hsame
      intro u
      rw [hcons u]
      constructor
      · rintro ⟨hu, hgid⟩
        exact ⟨huperm.mem_iff.mpr hu, hgid⟩
      · rintro ⟨hu, hgid⟩
        exact ⟨huperm.mem_iff.mp hu, hgid⟩
  · rintro ⟨g, hg, hnc⟩
    unfold mkCourseM
    cases hcheck : checkGroupsM users
        (List.insertionSort (fun a b => pyStrLeB a.group_id b.group_id = true) groups) with
    | error e => exact ⟨e, rfl⟩
    | ok u =>
      cases u
      have hsame := (checkGroupsM_ok_iff users _).mp hcheck g (hgperm.mem_iff.mpr hg)
      exact absurd ((sameMembers_iff users g).mp hsame) hnc

/-- Witness: a user declaring membership in group `G` that the group
`G` does not list makes `mwgg.Course` construction fail. -/
theorem c5_witness :
    ∃ e, mkCourseM 7 [⟨"Ann", "Ab", 1, "ann@example.com", ["G"]⟩] [⟨"G", []⟩] =
      .error e :=
  (c5_group_membership_consistency 7 [⟨"Ann", "Ab", 1, "ann@example.com", ["G"]⟩]
      [⟨"G", []⟩]).2
    ⟨⟨"G", []⟩, by simp, fun h => by
      have hm := (h ⟨"Ann", "Ab", 1, "ann@example.com", ["G"]⟩).mpr
        ⟨by simp, by simp⟩
      simp at hm⟩

/-- C9 amended: on a document with a group selector,
`extract_group_ids` succeeds with a list that excludes the option
with value `"0"`, contains no duplicates, and is sorted by the raw
(code-point) order of the group-name texts — not by their normalized
text. -/
theorem c9_amended_group_ids (d : Doc) (opts : List OptionTag)
    (h : d.groupSelect = some opts) :
    ∃ l, extractGroupIds d = .ok l ∧ l.Nodup ∧ l.Sorted pyLe ∧
      (∀ s, s ∈ l ↔ ∃ o ∈ opts, o.value ≠ "0" ∧ o.text = s) := by
  refine ⟨_, by unfold extractGroupIds; rw [h], ?_, ?_, ?_⟩
  · exact (List.perm_insertionSort pyLe _).nodup_iff.mpr (List.nodup_dedup _)
  · exact List.sorted_insertionSort pyLe _
  · intro s
    rw [(List.perm_insertionSort pyLe _).mem_iff, List.mem_dedup, List.mem_map]
    constructor
    · rintro ⟨o, ho, hs⟩
      have hf := List.mem_filter.mp ho
      exact ⟨o, hf.1, of_decide_eq_true hf.2, hs⟩
    · rintro ⟨o, ho, hv, hs⟩
      exact ⟨o, List.mem_filter.mpr ⟨ho, decide_eq_true hv⟩, hs⟩

/-- Witness: the amended group-id extraction applied to a concrete
document with one sentinel option and one group option. -/
theorem c9_witness :
    ∃ l, extractGroupIds ⟨[], some [⟨"0", "All participants"⟩, ⟨"88465", "Group 1_1"⟩]⟩ =
        .ok l ∧ l.Nodup ∧ l.Sorted pyLe ∧
      (∀ s, s ∈ l ↔
        ∃ o ∈ [(⟨"0", "All participants"⟩ : OptionTag), ⟨"88465", "Group 1_1"⟩],
          o.value ≠ "0" ∧ o.text = s) :=
  c9_amended_group_ids _ _ rfl

theorem groupPool_ok (report : List (String × ReportRecord)) :
    ∀ names : List String, (∀ n ∈ names, (lookupA n report).isSome) →
      groupPool report names = .ok ((names.map (receivedVals report)).flatten)
  | [] => by simp [groupPool]
  | n :: rest => by
    intro h
    have hn := h n (by simp)
    cases hl : lookupA n report with
    | none =>
      rw [hl] at hn
      simp at hn
    | some r =>
      unfold groupPool
      rw [hl, groupPool_ok report rest (fun m hm => h m (List.mem_cons_of_mem _ hm))]
      simp [Except.map, receivedVals, hl]

theorem multiset_sum_map_coe :
    ∀ l : List (List ℚ),
      ((l.map (fun x : List ℚ => (↑x : Multiset ℚ))).sum) = ((l.flatten : List ℚ) : Multiset ℚ)
  | [] => by simp
  | x :: rest => by
    simp only [List.map_cons, List.sum_cons, List.flatten_cons, multiset_sum_map_coe rest]
    rw [← Multiset.coe_add]

theorem specPool_coe (report : List (String × ReportRecord)) (g : GroupN) :
    specPool report g = ((g.members.map (reportReceived report)).flatten : Multiset ℚ) := by
  unfold specPool
  rw [← multiset_sum_map_coe, List.map_map]
  rfl

theorem meanOrNull_eq_specGroupScore (report : List (String × ReportRecord)) (g : GroupN) :
    meanOrNull ((g.members.map (reportReceived report)).flatten) = specGroupScore report g := by
  unfold meanOrNull specGroupScore
  rw [specPool_coe report g]
  by_cases hP : (g.members.map (reportReceived report)).flatten = []
  · rw [if_pos hP, if_pos (by rw [hP]; rfl)]
  · rw [if_neg hP, if_neg (by simpa [Multiset.coe_eq_zero] using hP)]
    rw [Multiset.sum_coe, Multiset.coe_card]

/-- C1: for an active group all of whose members appear in the
report, the group submission score computed by the aggregator (the
`group_grade` of `compute_grades`) is the arithmetic mean of the
multiset pooling every grade any member received from any peer, with
duplicate-source contributions counted; for an empty pool it is the
"no grade" sentinel. -/
theorem c1_group_score_is_mean_of_pool (report : List (String × ReportRecord))
    (groups : List GroupN) (groupIds : List String) (g : GroupN)
    (hg : g ∈ getWorkshopGroups groups groupIds)
    (hmem : ∀ m ∈ g.members, (lookupA m.full_name report).isSome) :
    aggregatorGroupScore report g = .ok (specGroupScore report g) := by
  have hnames : ∀ n ∈ g.members.map UserN.full_name, (lookupA n report).isSome := by
    intro n hn
    obtain ⟨m, hm, rfl⟩ := List.mem_map.mp hn
    exact hmem m hm
  unfold aggregatorGroupScore
  rw [groupPool_ok report _ hnames]
  have hmap : (g.members.map UserN.full_name).map (receivedVals report) =
      g.members.map (reportReceived report) := by
    rw [List.map_map]
    rfl
  rw [show Except.map meanOrNull
        (Except.ok ((List.map (receivedVals report) (g.members.map UserN.full_name)).flatten) :
          Except String (List ℚ)) =
      Except.ok (meanOrNull ((g.members.map UserN.full_name).map (receivedVals report)).flatten)
    from rfl]
  rw [hmap, meanOrNull_eq_specGroupScore report g]

/-- Witness: the aggregator score equals the spec-worded pool mean on
a one-member active group with a single received grade. -/
theorem c1_witness :
    aggregatorGroupScore [("Ann Ab", ⟨true, [("Pe Er", 80)], [], none, none⟩)]
        ⟨"A", [⟨"Ann", "Ab", some 1, "ann@example.com", ["A"]⟩]⟩ =
      .ok (specGroupScore [("Ann Ab", ⟨true, [("Pe Er", 80)], [], none, none⟩)]
        ⟨"A", [⟨"Ann", "Ab", some 1, "ann@example.com", ["A"]⟩]⟩) :=
  c1_group_score_is_mean_of_pool
    [("Ann Ab", ⟨true, [("Pe Er", 80)], [], none, none⟩)]
    [⟨"A", [⟨"Ann", "Ab", some 1, "ann@example.com", ["A"]⟩]⟩] ["A"]
    ⟨"A", [⟨"Ann", "Ab", some 1, "ann@example.com", ["A"]⟩]⟩
    (by decide) (by decide)

theorem groupPool_err (report : List (String × ReportRecord)) :
    ∀ names : List String, (∃ n ∈ names, lookupA n report = none) →
      ∃ e, groupPool report names = .error e
  | [] => by
    rintro ⟨n, hn, _⟩
    simp at hn
  | n :: rest => by
    rintro ⟨n', hn', hmiss⟩
    cases hl : lookupA n report with
    | none => exact ⟨_, by unfold groupPool; rw [hl]⟩
    | some r =>
      have hrest : ∃ m ∈ rest, lookupA m report = none := by
        rcases List.mem_cons.mp hn' with rfl | hmem
        · rw [hl] at hmiss
          cases hmiss
        · exact ⟨n', hmem, hmiss⟩
      obtain ⟨e, he⟩ := groupPool_err report rest hrest
      exact ⟨e, by unfold groupPool; rw [hl, he]; rfl⟩

theorem processGroupN_err (report : List (String × ReportRecord)) (g : GroupN)
    (hmiss : ∃ m ∈ g.members, lookupA m.full_name report = none)
    (gs : List (String × SubEntry)) :
    ∃ e, processGroupN report gs g = .error e := by
  obtain ⟨m, hm, hl⟩ := hmiss
  obtain ⟨e, he⟩ := groupPool_err report (g.members.map UserN.full_name)
    ⟨m.full_name, List.mem_map_of_mem _ hm, hl⟩
  exact ⟨e, by unfold processGroupN; rw [he]; rfl⟩

theorem foldlM_err {α β : Type} (f : β → α → Except String β) :
    ∀ (l : List α) (init : β), (∃ x ∈ l, ∀ s, ∃ e, f s x = .error e) →
      ∃ e, l.foldlM f init = .error e
  | [], init => by
    rintro ⟨x, hx, _⟩
    simp at hx
  | a :: t, init => by
    rintro ⟨x, hx, herr⟩
    cases hf : f init a with
    | error e =>
      exact ⟨e, by rw [List.foldlM_cons, hf]; rfl⟩
    | ok s1 =>
      rcases List.mem_cons.mp hx with rfl | hx'
      · obtain ⟨e, he⟩ := herr init
        rw [hf] at he
        cases he
      · obtain ⟨e, he⟩ := foldlM_err f t s1 ⟨x, hx', herr⟩
        exact ⟨e, by rw [List.foldlM_cons, hf]; exact he⟩

theorem groupPool_ok_mem (report : List (String × ReportRecord)) :
    ∀ names pool, groupPool report names = .ok pool →
      ∀ n ∈ names, (lookupA n report).isSome
  | [], _ => by
    intro _ n hn
    simp at hn
  | m :: rest, pool => by
    intro hok n hn
    cases hl : lookupA m report with
    | none =>
      unfold groupPool at hok
      rw [hl] at hok
      cases hok
    | some r =>
      unfold groupPool at hok
      rw [hl] at hok
      cases hrest : groupPool report rest with
      | error e =>
        rw [hrest] at hok
        cases hok
      | ok p =>
        rcases List.mem_cons.mp hn with rfl | hmem
        · rw [hl]
          rfl
        · exact groupPool_ok_mem report rest p hrest n hmem

theorem groupReset_lookup_isSome (n : String) :
    ∀ (names : List String) (gs : List (String × SubEntry)),
      (lookupA n (groupReset gs names)).isSome →
      (lookupA n gs).isSome ∨ n ∈ names
  | [], gs => fun h => Or.inl h
  | m :: rest, gs => by
    intro h
    have hstep : groupReset gs (m :: rest) = groupReset (updAssoc m none gs) rest := rfl
    rw [hstep] at h
    rcases groupReset_lookup_isSome n rest (updAssoc m none gs) h with h' | h'
    · rcases lookupA_updAssoc_isSome m n none gs h' with rfl | h''
      · exact Or.inr (by simp)
      · exact Or.inl h''
    · exact Or.inr (List.mem_cons_of_mem _ h')

theorem groupAssign_ok_lookup_isSome (report : List (String × ReportRecord))
    (gg : Option ℚ) (n : String) :
    ∀ (names : List String) (gs gs' : List (String × SubEntry)),
      groupAssign report gg gs names = .ok gs' →
      (lookupA n gs').isSome → (lookupA n gs).isSome ∨ n ∈ names
  | [], gs, gs' => by
    intro hok h
    unfold groupAssign at hok
    injection hok with hok
    subst hok
    exact Or.inl h
  | m :: rest, gs, gs' => by
    intro hok h
    unfold groupAssign at hok
    cases hl : lookupA m report with
    | none =>
      rw [hl] at hok
      cases hok
    | some r =>
      rw [hl] at hok
      rcases groupAssign_ok_lookup_isSome report gg n rest _ gs' hok h with h' | h'
      · rcases lookupA_updAssoc_isSome m n _ gs h' with rfl | h''
        · exact Or.inr (by simp)
        · exact Or.inl h''
      · exact Or.inr (List.mem_cons_of_mem _ h')

theorem processGroupN_ok_keys (report : List (String × ReportRecord)) (g : GroupN)
    (gs gs' : List (String × SubEntry)) (n : String)
    (hok : processGroupN report gs g = .ok gs')
    (h : (lookupA n gs').isSome) :
    (lookupA n gs).isSome ∨ (lookupA n report).isSome := by
  unfold processGroupN at hok
  cases hp : groupPool report (g.members.map UserN.full_name) with
  | error e =>
    rw [hp] at hok
    cases hok
  | ok pool =>
    rw [hp] at hok
    have hassign : groupAssign report (meanOrNull pool)
        (groupReset gs (g.members.map UserN.full_name))
        (g.members.map UserN.full_name) = .ok gs' := hok
    rcases groupAssign_ok_lookup_isSome report (meanOrNull pool) n _ _ _ hassign h with h' | h'
    · rcases groupReset_lookup_isSome n _ gs h' with h'' | h''
      · exact Or.inl h''
      · exact Or.inr (groupPool_ok_mem report _ pool hp n h'')
    · exact Or.inr (groupPool_ok_mem report _ pool hp n h')

theorem fold_ok_keys (report : List (String × ReportRecord)) (n : String) :
    ∀ (l : List GroupN) (gs gsf : List (String × SubEntry)),
      l.foldlM (processGroupN report) gs = .ok gsf →
      (lookupA n gsf).isSome → (lookupA n gs).isSome ∨ (lookupA n report).isSome
  | [], gs, gsf => by
    intro hok h
    rw [List.foldlM_nil] at hok
    injection hok with hok
    subst hok
    exact Or.inl h
  | a :: t, gs, gsf => by
    intro hok h
    rw [List.foldlM_cons] at hok
    cases ha : processGroupN report gs a with
    | error e =>
      rw [ha] at hok
      cases hok
    | ok gs1 =>
      rw [ha] at hok
      rcases fold_ok_keys report n t gs1 gsf hok h with h' | h'
      · exact processGroupN_ok_keys report a gs gs1 n ha h'
      · exact Or.inr h'

theorem overallLoop_ok_keys (report : List (String × ReportRecord)) (n : String) :
    ∀ (gs : List (String × SubEntry)) (out : List (String × ℚ × ℚ)),
      overallLoop report gs = .ok out →
      (lookupA n out).isSome → (lookupA n gs).isSome
  | [], out => by
    intro hok h
    unfold overallLoop at hok
    injection hok with hok
    subst hok
    simp [lookupA] at h
  | (m, e) :: rest, out => by
    intro hok h
    unfold overallLoop at hok
    cases e with
    | none => cases hok
    | some sub =>
      cases hl : lookupA m report with
      | none =>
        rw [hl] at hok
        cases hok
      | some r =>
        rw [hl] at hok
        cases sub with
        | none => cases hok
        | some s =>
          cases hrest : overallLoop report rest with
          | error e' =>
            rw [hrest] at hok
            cases hok
          | ok out' =>
            rw [hrest] at hok
            have hout : (m, s, s + match r.grading with | none => 0 | some a => a) :: out'
                = out := by injection hok
            subst hout
            by_cases hnm : n = m
            · subst hnm
              simp [lookupA]
            · simp only [lookupA, if_neg hnm] at h ⊢
              exact overallLoop_ok_keys report n rest out' hrest h

/-- C6 amended: when the aggregator completes, every roster
participant absent from the report grade table is simply omitted from
the output (so the output may be smaller than the roster); but a
participant who belongs to an *active* group while absent from the
report makes `compute_grades` abort with a lookup error rather than
being omitted. -/
theorem c6_amended_absent_participants (report : List (String × ReportRecord))
    (groups : List GroupN) (groupIds : List String) :
    (∀ out, computeGrades report groups groupIds = .ok out →
      ∀ n, lookupA n report = none → lookupA n out = none) ∧
    ((∃ g ∈ getWorkshopGroups groups groupIds, ∃ m ∈ g.members,
        lookupA m.full_name report = none) →
      ∃ e, computeGrades report groups groupIds = .error e) := by
  constructor
  · intro out hok n hmiss
    by_contra hne
    have hsome : (lookupA n out).isSome := Option.ne_none_iff_isSome.mp hne
    unfold computeGrades at hok
    cases hf : (getWorkshopGroups groups groupIds).foldlM (processGroupN report) [] with
    | error e =>
      rw [hf] at hok
      cases hok
    | ok gs =>
      rw [hf] at hok
      have hov : overallLoop report gs = .ok out := hok
      have hgs := overallLoop_ok_keys report n gs out hov hsome
      rcases fold_ok_keys report n _ [] gs hf hgs with h' | h'
      · simp [lookupA] at h'
      · rw [hmiss] at h'
        simp at h'
  · rintro ⟨g, hg, hmiss⟩
    obtain ⟨e, he⟩ := foldlM_err (processGroupN report) (getWorkshopGroups groups groupIds) []
      ⟨g, hg, fun s => processGroupN_err report g hmiss s⟩
    exact ⟨e, by unfold computeGrades; rw [he]; rfl⟩

/-- Witness: a member of the active group "B" who is absent from the
report makes the aggregator fail. -/
theorem c6_witness :
    ∃ e, computeGrades [] [⟨"B", [⟨"Bob", "Cd", some 2, "bob@example.com", ["B"]⟩]⟩] ["B"] =
      .error e :=
  (c6_amended_absent_participants [] [⟨"B", [⟨"Bob", "Cd", some 2, "bob@example.com", ["B"]⟩]⟩]
      ["B"]).2
    ⟨⟨"B", [⟨"Bob", "Cd", some 2, "bob@example.com", ["B"]⟩]⟩, by decide,
      ⟨"Bob", "Cd", some 2, "bob@example.com", ["B"]⟩, by decide, rfl⟩

theorem map_names_received (report : List (String × ReportRecord)) (g : GroupN) :
    (g.members.map UserN.full_name).map (receivedVals report) =
      g.members.map (reportReceived report) := by
  rw [List.map_map]
  rfl

theorem groupAssign_untouched (report : List (String × ReportRecord)) (gg : Option ℚ)
    (n : String) :
    ∀ (names : List String) (gs gs' : List (String × SubEntry)),
      groupAssign report gg gs names = .ok gs' → n ∉ names →
      lookupA n gs' = lookupA n gs
  | [], gs, gs' => by
    intro hok _
    unfold groupAssign at hok
    injection hok with hok
    subst hok
    rfl
  | m :: rest, gs, gs' => by
    intro hok hn
    unfold groupAssign at hok
    cases hl : lookupA m report with
    | none =>
      rw [hl] at hok
      cases hok
    | some r =>
      rw [hl] at hok
      have hrest : n ∉ rest := fun h => hn (List.mem_cons_of_mem _ h)
      rw [groupAssign_untouched report gg n rest _ gs' hok hrest]
      exact lookupA_updAssoc_ne m n _ (fun h => hn (h ▸ List.mem_cons_self m rest)) gs

theorem groupAssign_mem (report : List (String × ReportRecord)) (gg : Option ℚ)
    (n : String) (r : ReportRecord) (hr : lookupA n report = some r) :
    ∀ (names : List String) (gs gs' : List (String × SubEntry)),
      groupAssign report gg gs names = .ok gs' → n ∈ names →
      lookupA n gs' = some (assignedValue r gg)
  | [], gs, gs' => by
    intro _ hn
    simp at hn
  | m :: rest, gs, gs' => by
    intro hok hn
    unfold groupAssign at hok
    cases hl : lookupA m report with
    | none =>
      rw [hl] at hok
      cases hok
    | some rm =>
      rw [hl] at hok
      by_cases hmem : n ∈ rest
      · exact groupAssign_mem report gg n r hr rest _ gs' hok hmem
      · have hnm : n = m := by
          rcases List.mem_cons.mp hn with h | h
          · exact h
          · exact absurd h hmem
        subst hnm
        have hrm : rm = r := by
          rw [hr] at hl
          injection hl with h
          exact h.symm
        subst hrm
        rw [groupAssign_untouched report gg n rest _ gs' hok hmem]
        exact lookupA_updAssoc_self n _ gs

theorem groupReset_untouched (n : String) :
    ∀ (names : List String) (gs : List (String × SubEntry)),
      n ∉ names → lookupA n (groupReset gs names) = lookupA n gs
  | [], gs => fun _ => rfl
  | m :: rest, gs => by
    intro hn
    have hstep : groupReset gs (m :: rest) = groupReset (updAssoc m none gs) rest := rfl
    rw [hstep,
      groupReset_untouched n rest _ (fun h => hn (List.mem_cons_of_mem _ h))]
    exact lookupA_updAssoc_ne m n none (fun h => hn (h ▸ List.mem_cons_self m rest)) gs

theorem processGroupN_untouched (report : List (String × ReportRecord)) (g : GroupN)
    (gs gs' : List (String × SubEntry)) (n : String)
    (hok : processGroupN report gs g = .ok gs')
    (hn : n ∉ g.members.map UserN.full_name) :
    lookupA n gs' = lookupA n gs := by
  unfold processGroupN at hok
  cases hp : groupPool report (g.members.map UserN.full_name) with
  | error e =>
    rw [hp] at hok
    cases hok
  | ok pool =>
    rw [hp] at hok
    have hassign : groupAssign report (meanOrNull pool)
        (groupReset gs (g.members.map UserN.full_name))
        (g.members.map UserN.full_name) = .ok gs' := hok
    rw [groupAssign_untouched report (meanOrNull pool) n _ _ gs' hassign hn]
    exact groupReset_untouched n _ gs hn

theorem processGroupN_mem (report : List (String × ReportRecord)) (g : GroupN)
    (gs gs' : List (String × SubEntry)) (n : String) (r : ReportRecord)
    (hok : processGroupN report gs g = .ok gs')
    (hn : n ∈ g.members.map UserN.full_name)
    (hr : lookupA n report = some r) :
    lookupA n gs' = some (assignedValue r (codeGroupScore report g)) := by
  unfold processGroupN at hok
  cases hp : groupPool report (g.members.map UserN.full_name) with
  | error e =>
    rw [hp] at hok
    cases hok
  | ok pool =>
    rw [hp] at hok
    have hassign : groupAssign report (meanOrNull pool)
        (groupReset gs (g.members.map UserN.full_name))
        (g.members.map UserN.full_name) = .ok gs' := hok
    have hpres := groupPool_ok_mem report _ pool hp
    have hpok := groupPool_ok report _ hpres
    rw [hp] at hpok
    injection hpok with hpool
    have hscore : meanOrNull pool = codeGroupScore report g := by
      rw [hpool]
      unfold codeGroupScore
      rw [map_names_received report g]
    rw [groupAssign_mem report (meanOrNull pool) n r hr _ _ gs' hassign hn, hscore]

theorem fold_untouched (report : List (String × ReportRecord)) (n : String) :
    ∀ (l : List GroupN) (gs gsf : List (String × SubEntry)),
      l.foldlM (processGroupN report) gs = .ok gsf →
      l.filter (fun g => decide (n ∈ g.members.map UserN.full_name)) = [] →
      lookupA n gsf = lookupA n gs
  | [], gs, gsf => by
    intro hok _
    rw [List.foldlM_nil] at hok
    injection hok with hok
    subst hok
    rfl
  | a :: t, gs, gsf => by
    intro hok hfil
    rw [List.foldlM_cons] at hok
    cases ha : processGroupN report gs a with
    | error e =>
      rw [ha] at hok
      cases hok
    | ok gs1 =>
      rw [ha] at hok
      have hokt : t.foldlM (processGroupN report) gs1 = .ok gsf := hok
      by_cases hpa : n ∈ a.members.map UserN.full_name
      · rw [List.filter_cons, if_pos (decide_eq_true hpa)] at hfil
        cases hfil
      · rw [List.filter_cons,
          if_neg (by simpa using hpa)] at hfil
        rw [fold_untouched report n t gs1 gsf hokt hfil]
        exact processGroupN_untouched report a gs gs1 n ha hpa

theorem fold_last (report : List (String × ReportRecord)) (n : String) (r : ReportRecord)
    (hr : lookupA n report = some r) :
    ∀ (l : List GroupN) (gs gsf : List (String × SubEntry)),
      l.foldlM (processGroupN report) gs = .ok gsf →
      ∀ res, (l.filter (fun g => decide (n ∈ g.members.map UserN.full_name))).getLast? =
          some res →
      lookupA n gsf = some (assignedValue r (codeGroupScore report res))
  | [], gs, gsf => by
    intro _ res hlast
    simp at hlast
  | a :: t, gs, gsf => by
    intro hok res hlast
    rw [List.foldlM_cons] at hok
    cases ha : processGroupN report gs a with
    | error e =>
      rw [ha] at hok
      cases hok
    | ok gs1 =>
      rw [ha] at hok
      have hokt : t.foldlM (processGroupN report) gs1 = .ok gsf := hok
      by_cases hpa : n ∈ a.members.map UserN.full_name
      · rw [List.filter_cons, if_pos (decide_eq_true hpa)] at hlast
        cases hft : t.filter (fun g => decide (n ∈ g.members.map UserN.full_name)) with
        | nil =>
          rw [hft] at hlast
          have hres : a = res := by
            simpa using hlast
          subst hres
          rw [fold_untouched report n t gs1 gsf hokt hft]
          exact processGroupN_mem report a gs gs1 n r ha hpa hr
        | cons b bs =>
          rw [hft] at hlast
          rw [List.getLast?_cons_cons] at hlast
          exact fold_last report n r hr t gs1 gsf hokt res (by rw [hft]; exact hlast)
      · rw [List.filter_cons, if_neg (by simpa using hpa)] at hlast
        exact fold_last report n r hr t gs1 gsf hokt res hlast

theorem overallLoop_values (report : List (String × ReportRecord)) (n : String) :
    ∀ (gs : List (String × SubEntry)) (out : List (String × ℚ × ℚ)),
      overallLoop report gs = .ok out →
      ∀ sub, lookupA n gs = some (some sub) →
      ∃ s rr, sub = some s ∧ lookupA n report = some rr ∧
        lookupA n out = some (s, s + (match rr.grading with | none => 0 | some a => a))
  | [], out => by
    intro _ sub hlook
    simp [lookupA] at hlook
  | (m, e) :: rest, out => by
    intro hok sub hlook
    unfold overallLoop at hok
    cases e with
    | none => cases hok
    | some sub' =>
      cases hl : lookupA m report with
      | none =>
        rw [hl] at hok
        cases hok
      | some rm =>
        rw [hl] at hok
        cases sub' with
        | none => cases hok
        | some s' =>
          cases hrest : overallLoop report rest with
          | error e' =>
            rw [hrest] at hok
            cases hok
          | ok out' =>
            rw [hrest] at hok
            have hout : (m, s', s' + match rm.grading with | none => 0 | some a => a) :: out'
                = out := by injection hok
            subst hout
            by_cases hnm : n = m
            · subst hnm
              simp only [lookupA, if_pos rfl] at hlook
              injection hlook with hlook
              injection hlook with hlook
              exact ⟨s', rm, hlook.symm, hl, by simp [lookupA]⟩
            · simp only [lookupA, if_neg hnm] at hlook ⊢
              exact overallLoop_values report n rest out' hrest sub hlook

/-- C10: a participant who appears in the report and belongs to two
or more active groups contributes their received grades to the pool
of every such group, and the submission and overall components the
aggregator finally reports for them are the ones computed for the
last such group in the course's sorted group order — assignments made
for earlier groups are silently overwritten and no error is
raised. -/
theorem c10_last_group_wins (report : List (String × ReportRecord)) (groups : List GroupN)
    (groupIds : List String) (n : String) (r : ReportRecord)
    (hr : lookupA n report = some r) (out : List (String × ℚ × ℚ))
    (hok : computeGrades report groups groupIds = .ok out)
    (gLast : GroupN)
    (hlast : ((getWorkshopGroups groups groupIds).filter
        (fun g => decide (n ∈ g.members.map UserN.full_name))).getLast? = some gLast)
    (hmulti : 2 ≤ ((getWorkshopGroups groups groupIds).filter
        (fun g => decide (n ∈ g.members.map UserN.full_name))).length) :
    (∀ g ∈ getWorkshopGroups groups groupIds, n ∈ g.members.map UserN.full_name →
      ∀ q ∈ r.received.map Prod.snd, q ∈ (g.members.map (reportReceived report)).flatten) ∧
    ∃ s, lookupA n out = some (s, s + (match r.grading with | none => 0 | some a => a)) ∧
      (if r.submitted then codeGroupScore report gLast = some s else s = 0) := by
  constructor
  · intro g _ hng q hq
    obtain ⟨m, hm, hmn⟩ := List.mem_map.mp hng
    refine List.mem_flatten.mpr ⟨reportReceived report m, List.mem_map_of_mem _ hm, ?_⟩
    unfold reportReceived receivedVals
    rw [hmn, hr]
    exact hq
  · unfold computeGrades at hok
    cases hf : (getWorkshopGroups groups groupIds).foldlM (processGroupN report) [] with
    | error e =>
      rw [hf] at hok
      cases hok
    | ok gs =>
      rw [hf] at hok
      have hov : overallLoop report gs = .ok out := hok
      have hgs := fold_last report n r hr _ [] gs hf gLast hlast
      obtain ⟨s, rr, hsub, hrr, hout⟩ :=
        overallLoop_values report n gs out hov _ hgs
      have hrrr : rr = r := by
        rw [hr] at hrr
        injection hrr with h
        exact h.symm
      rw [hrrr] at hout
      refine ⟨s, hout, ?_⟩
      by_cases hsubm : r.submitted = true
      · simp only [hsubm, if_true] at hsub ⊢
        exact hsub
      · have hfalse : r.submitted = false := by
          simpa using hsubm
        simp only [hfalse, Bool.false_eq_true, if_false] at hsub ⊢
        injection hsub with h
        exact h.symm

/-- Witness: a participant in the two active groups "A" and "B" (who
did not submit and received no grades) ends with the values computed
for group "B", the later of the two, and the aggregator completes. -/
theorem c10_witness :
    (∀ g ∈ getWorkshopGroups
        [⟨"A", [⟨"Ann", "Ab", some 1, "ann@example.com", ["A", "B"]⟩]⟩,
         ⟨"B", [⟨"Ann", "Ab", some 1, "ann@example.com", ["A", "B"]⟩]⟩] ["A", "B"],
      "Ann Ab" ∈ g.members.map UserN.full_name →
      ∀ q ∈ (ReportRecord.mk false [] [] none none).received.map Prod.snd,
        q ∈ (g.members.map
          (reportReceived [("Ann Ab", ⟨false, [], [], none, none⟩)])).flatten) ∧
    ∃ s, lookupA "Ann Ab" [("Ann Ab", (0 : ℚ), (0 : ℚ) + 0)] =
        some (s, s + (match (ReportRecord.mk false [] [] none none).grading with
          | none => 0 | some a => a)) ∧
      (if (ReportRecord.mk false [] [] none none).submitted then
        codeGroupScore [("Ann Ab", ⟨false, [], [], none, none⟩)]
          ⟨"B", [⟨"Ann", "Ab", some 1, "ann@example.com", ["A", "B"]⟩]⟩ = some s
       else s = 0) :=
  c10_last_group_wins [("Ann Ab", ⟨false, [], [], none, none⟩)]
    [⟨"A", [⟨"Ann", "Ab", some 1, "ann@example.com", ["A", "B"]⟩]⟩,
     ⟨"B", [⟨"Ann", "Ab", some 1, "ann@example.com", ["A", "B"]⟩]⟩]
    ["A", "B"] "Ann Ab" ⟨false, [], [], none, none⟩ rfl
    [("Ann Ab", (0 : ℚ), (0 : ℚ) + 0)] rfl
    ⟨"B", [⟨"Ann", "Ab", some 1, "ann@example.com", ["A", "B"]⟩]⟩ rfl (by decide)

end MWGG
